import Mathlib

/-!
Verification of the Android vendored-module versioning pipeline
(`tools/src/versioning/android/versionVendoredModules.ts`).

The pipeline is shallow-embedded as pure Lean functions:
* filesystem paths are modelled as lists of path segments (`Path`);
* the effectful run is modelled as a pure function producing a trace of
  filesystem / subprocess actions (`Action`) plus an optional error,
  mirroring the source's sequential `await` control flow;
* external collaborators (glob results, the external gradle build outcome,
  the per-module transform configuration, and the transform engine from
  `Transforms.ts`) are supplied by an environment record, since their code
  is outside the embedded file;
* SDK numbers are modelled as natural numbers (the source passes
  non-negative integer SDK revisions such as 44, 45).
-/

namespace Expo

/-- A filesystem path, as a list of path segments (the result of `path.join`
of the segments with separator `/`). -/
abbrev Path := List String

/-- Helper for `splitSlash`: splits a character list at every `/`. -/
def splitSegsAux : List Char → List Char → List (List Char)
  | [], acc => [acc.reverse]
  | c :: cs, acc =>
    if c = '/' then acc.reverse :: splitSegsAux cs []
    else splitSegsAux cs (c :: acc)

/-- Splitting a string on the separator `/`, as `name.split('/')` would. -/
def splitSlash (s : String) : List String :=
  (splitSegsAux s.data []).map List.asString

/-- Joining segments with `/`. -/
def joinSlash : List String → String
  | [] => ""
  | [x] => x
  | x :: xs => x ++ "/" ++ joinSlash xs

/-- Replaces every `/` by `_`, as the source's `module.replace(/\//g, '_')`. -/
def slashToUnderscore (s : String) : String :=
  s.map (fun c => if c = '/' then '_' else c)

/-- Whether `base` is a leading segment sequence of `p` (so `p` lies at or
under the directory `base`). -/
def startsWithPath : Path → Path → Bool
  | [], _ => true
  | _ :: _, [] => false
  | a :: as, b :: bs => a == b && startsWithPath as bs

/-! ### Decimal rendering of a natural number

The source derives the version prefix by string interpolation of the SDK
number (`abi${sdkNumber}_0_0`); Lean's `toString`/`Nat.repr` is the same
decimal rendering.  We prove `Nat.repr` injective by exhibiting a value
function that recovers the number from its digit characters. -/

/-- The numeric value of a decimal digit character ('0'..'9' map to 0..9). -/
def digitVal (c : Char) : Nat := c.toNat - 48

/-- Decimal value of a character list, most significant digit first. -/
def decValue (cs : List Char) : Nat :=
  cs.foldl (fun acc c => 10 * acc + digitVal c) 0

/-! ### The version prefix -/

/-- The namespace token derived from the SDK number, as in the source's
`const prefix = \x60abi${sdkNumber}_0_0\x60`. -/
def versionPfx (sdkNumber : Nat) : String :=
  "abi" ++ toString sdkNumber ++ "_0_0"

/-! ### Transform rules (`Transforms.types`) -/

/-- A `find` pattern: a literal string or a regular expression (kept as its
source text and flags; no claim depends on pattern semantics). -/
inductive Pattern where
  | lit (s : String)
  | regex (source : String) (flags : String)

/-- A content-rule replacement: a template string (possibly referencing
capture groups) or a pure function of the whole match and its groups. -/
inductive Replacement where
  | literal (s : String)
  | func (f : String → List String → String)

/-- A path rewrite rule. -/
structure PathRule where
  find : Pattern
  replaceWith : String

/-- A content rewrite rule, optionally scoped to file globs. -/
structure ContentRule where
  paths : Option (List String)
  find : Pattern
  replaceWith : Replacement

/-- The type `FileTransforms` with both fields present, as in the source's
`Required<FileTransforms>`. -/
structure RequiredTransforms where
  path : List PathRule
  content : List ContentRule

/-- The type `FileTransforms` with optional fields (per-module override entries). -/
structure FileTransforms where
  path : Option (List PathRule) := none
  content : Option (List ContentRule) := none

/-- The conditional replacement used by the `find_library` content rule:
well-known libraries `fbjni` and `log` are left unrenamed. -/
def findLibraryReplace (pfx : String) (substring : String) (groups : List String) : String :=
  let group1 := groups.headD ""
  let libName := (groups.drop 1).headD ""
  if libName = "fbjni" ∨ libName = "log" then substring
  else group1 ++ libName ++ "_" ++ pfx

/-- Base transforms applied to every vendored module
(`baseTransformsFactory` in the source, transcribed rule for rule). -/
def baseTransformsFactory (pfx : String) : RequiredTransforms where
  path := [
    { find := .regex "\\/java\\/" ""
      replaceWith := "/java/" ++ pfx ++ "/" }]
  content := [
    { paths := some ["*.\x7bjava,kt\x7d"]
      find := .regex "(^package\\s+)([\\w.]+;?)" "m"
      replaceWith := .literal ("$1" ++ pfx ++ ".$2") },
    { paths := some ["*.\x7bjava,kt\x7d"]
      find := .regex
        "(\\bcom\\.facebook\\.(catalyst|csslayout|fbreact|hermes|perftest|quicklog|react|systrace|yoga|debug)\\b)" "g"
      replaceWith := .literal (pfx ++ ".$1") },
    { paths := some ["*.\x7bjava,kt\x7d"]
      find := .regex "\\b((System|SoLoader)\\.loadLibrary\\(\"[^\"]*)(\"\\);?)" "g"
      replaceWith := .literal ("$1_" ++ pfx ++ "$3") },
    { paths := some ["*.\x7bh,cpp\x7d"]
      find := .regex "(\\bkJavaDescriptor\\s*=\\s*\\n?\\s*\"L)" "gm"
      replaceWith := .literal ("$1" ++ pfx ++ "/") },
    { paths := some ["build.gradle"]
      find := .lit "implementation \x27com.facebook.react:react-native:+\x27"
      replaceWith := .literal
        ("implementation \x27host.exp:reactandroid-" ++ pfx ++ ":1.0.0\x27" ++ "\n" ++
          "    compileOnly \x27com.facebook.fbjni:fbjni:0.2.2\x27\n" ++
          "    compileOnly \x27com.facebook.yoga:proguard-annotations:1.19.0\x27\n" ++
          "    compileOnly \x27androidx.annotation:annotation:1.3.0\x27\n") },
    { paths := some ["build.gradle"]
      find := .lit "buildDir/react-native-0*/jni"
      replaceWith := .literal "buildDir/reactandroid-abi*/jni" },
    { paths := some ["build.gradle", "CMakeLists.txt"]
      find := .regex "\\/react-native\\/" "g"
      replaceWith := .literal "/versioned-react-native/" },
    { paths := some ["build.gradle"]
      find := .regex "def rnAAR = fileTree.*\\*\\.aar.*\\)" "g"
      replaceWith := .literal
        ("def rnAAR = fileTree(\"$\x7brootDir\x7d/versioned-abis\").matching(\x7b include \"**/reactandroid-"
          ++ pfx ++ "/**/*.aar\" \x7d)") },
    { paths := some ["CMakeLists.txt"]
      find := .regex "(^set\\s*\\(PACKAGE_NAME\\s*[\x27\"])(\\w+)([\x27\"]\\))" "gm"
      replaceWith := .literal ("$1$2_" ++ pfx ++ "$3") },
    { paths := some ["CMakeLists.txt"]
      find := .regex "(\\bfind_library\\(\\n?\\s*[A-Z_]+\\n?\\s*)(\\w+)" "gm"
      replaceWith := .func (findLibraryReplace pfx) },
    { paths := some ["AndroidManifest.xml"]
      find := .regex "(\\bpackage=\")([\\w.]+)(\")" ""
      replaceWith := .literal ("$1" ++ pfx ++ ".$2$3") }]

/-- The per-module merged transform set built in the orchestrator's loop:
base rules first, then the module's override rules (`moduleConfig?.path ?? []`
and `moduleConfig?.content ?? []` appended). -/
def moduleTransforms (base : RequiredTransforms) (moduleConfig : Option FileTransforms) :
    RequiredTransforms where
  path := base.path ++ ((moduleConfig.bind FileTransforms.path).getD [])
  content := base.content ++ ((moduleConfig.bind FileTransforms.content).getD [])

/-! ### Module discovery (`getVendoredModuleNamesAsync`) -/

/-- ASCII lowercasing of a character code (the `i` regex flag's case
folding, restricted to the ASCII letters that path segments use). -/
def lowerCode (c : Char) : Nat :=
  if 65 ≤ c.toNat ∧ c.toNat ≤ 90 then c.toNat + 32 else c.toNat

/-- Case-insensitive string comparison (the discovery regex carries the `i`
flag). -/
def caselessEq (a b : String) : Bool :=
  a.data.map lowerCode == b.data.map lowerCode

/-- Case-insensitive segment-wise path comparison. -/
def caselessEqList : List String → List String → Bool
  | [], [] => true
  | a :: as, b :: bs => caselessEq a b && caselessEqList as bs
  | _, _ => false

/-- Strips a leading directory (case-insensitively) from a path, returning
the remaining segments. -/
def stripDirCaseless : List String → List String → Option (List String)
  | [], p => some p
  | _ :: _, [] => none
  | d :: ds, s :: ss => if caselessEq s d then stripDirCaseless ds ss else none

/-- Splits off the last two segments of a path. -/
def splitLastTwo : List String → Option (List String × String × String)
  | [] => none
  | [_] => none
  | [a, b] => some ([], a, b)
  | x :: y :: z :: zs =>
    match splitLastTwo (y :: z :: zs) with
    | some (mid, a, b) => some (x :: mid, a, b)
    | none => none

/-- The positional whole-path pattern in the spec's words
(`<root>/<moduleName>/android/build.gradle`, compared case-insensitively):
the path must consist of the root directory, at least one intermediate
segment (the module name), and the trailing segments `android/build.gradle`.
Kept for comparison with the source's unanchored regex search
`matchVendoredModule`. -/
def positionalVendoredModuleName (directory : Path) (p : Path) : Option String :=
  match stripDirCaseless directory p with
  | none => none
  | some rest =>
    match splitLastTwo rest with
    | none => none
    | some (mid, a, b) =>
      if !mid.isEmpty && caselessEq a "android" && caselessEq b "build.gradle" then
        some (joinSlash mid)
      else
        none

/-- Whether one literal character of the interpolated regex source matches a
subject character: a dot in the pattern is the regex wildcard (matching
anything but a newline), every other character matches up to ASCII case
(the `i` flag).  Filesystem paths contain no regex metacharacter other than
the dot, so this is the whole character semantics the discovery regex
uses. -/
def charMatches (pc sc : Char) : Bool :=
  if pc = '.' then !(sc == '\n') else lowerCode pc == lowerCode sc

/-- Whether the literal pattern matches a prefix of the subject. -/
def litMatchesPre : List Char → List Char → Bool
  | [], _ => true
  | _ :: _, [] => false
  | pc :: ps, sc :: ss => charMatches pc sc && litMatchesPre ps ss

/-- Pointwise literal match of two equally long character lists. -/
def chMatchList : List Char → List Char → Bool
  | [], [] => true
  | pc :: ps, sc :: ss => charMatches pc sc && chMatchList ps ss
  | _, _ => false

/-- The greedy `(.*)` capture: scans every split of the subject, remembering
the capture of the rightmost position at which the trailing literal `pat2`
matches; the capture cannot extend past a newline (the wildcard does not
match one).  `acc` holds the reversed capture so far, `best` the rightmost
success so far. -/
def greedyAux (pat2 : List Char) : List Char → List Char → Option (List Char) → Option (List Char)
  | acc, [], best => if litMatchesPre pat2 [] then some acc.reverse else best
  | acc, c :: cs, best =>
    let best2 := if litMatchesPre pat2 (c :: cs) then some acc.reverse else best
    if c = '\n' then best2 else greedyAux pat2 (c :: acc) cs best2

/-- The unanchored search for `pat1 ++ (.*) ++ pat2`: at each starting
position the fixed head `pat1` must match and the greedy capture must be
closed by `pat2` somewhere to the right; the leftmost starting position
that succeeds wins, as in JavaScript `String.prototype.match`. -/
def findModuleMatch (pat1 pat2 : List Char) : List Char → Option (List Char)
  | [] => if litMatchesPre pat1 [] then greedyAux pat2 [] [] none else none
  | c :: cs =>
    match (if litMatchesPre pat1 (c :: cs) then
        greedyAux pat2 [] (List.drop pat1.length (c :: cs)) none
      else none) with
    | some cap => some cap
    | none => findModuleMatch pat1 pat2 cs

/-- The discovery matcher, embedding the source's
`gradlePath.match(new RegExp(directory + "/(.*)/android/build.gradle", "i"))`:
the search is unanchored (a match anywhere in the path string suffices),
the dots of the interpolated pattern are wildcards, matching is ASCII
case-insensitive, the capture is greedy and the leftmost starting position
wins; the returned module name is the first capture group. -/
def matchVendoredModule (directory : Path) (p : Path) : Option String :=
  (findModuleMatch ((joinSlash directory ++ "/").data) ("/android/build.gradle".data)
      (joinSlash p).data).map List.asString

/-- Module-name discovery (`getVendoredModuleNamesAsync`): the glob results
for `**/build.gradle` (symlink-resolved, supplied by the environment) are
reduced left to right, pushing the captured module name of each path that
matches the pattern and skipping the rest. -/
def getVendoredModuleNames (directory : Path) (vendoredGradlePaths : List Path) : List String :=
  vendoredGradlePaths.foldl
    (fun result gradlePath =>
      match matchVendoredModule directory gradlePath with
      | some moduleName => result ++ [moduleName]
      | none => result)
    []

/-! ### Effect trace and environment -/

/-- One observable effect of the pipeline, in the order the source awaits it.
`copyWithTransforms` records a call into the external transform engine
(`copyFileWithTransformsAsync`) with its exact arguments; the remaining
constructors are the filesystem and subprocess operations the embedded file
performs itself. -/
inductive Action where
  | removeDir (p : Path)
  | copyWithTransforms (sourceFile : Path) (sourceDirectory : Path) (targetDirectory : Path)
      (transforms : RequiredTransforms)
  | spawnGradle (cwd : Path) (target : String)
  | ensureDir (p : Path)
  | copyFile (src dst : Path)
  | writeFile (p : Path) (content : String)

/-- An error aborting the run. -/
inductive BuildError where
  | spawnFailed (target : String)
  | assertFailed
deriving DecidableEq

/-- External collaborators of the pipeline: the repository layout constant,
the per-module transform configuration (`vendoredModulesTransforms`, keyed by
the version prefix and the module name), the glob results, the filesystem
existence check, and the external gradle build outcome. -/
structure VendoringEnv where
  /-- `ANDROID_DIR` from `Constants`. -/
  androidDir : Path
  /-- `vendoredModulesTransforms(prefix)[name]` — external configuration data. -/
  config : String → String → Option FileTransforms
  /-- Results of `glob("**/build.gradle", { cwd, nodir: true, realpath: true })`. -/
  gradlePaths : Path → List Path
  /-- Results of `searchFilesAsync(sourceDirectory, "**")`. -/
  moduleFiles : Path → List Path
  /-- `fs.existsSync` at a path. -/
  exists_ : Path → Bool
  /-- Whether the spawned gradle invocation for a target exits successfully. -/
  buildSucceeds : String → Bool
  /-- Results of `glob("**/*.so", { cwd: buildLibDir })`, relative paths. -/
  soFiles : Path → List Path

/-- The basename `path.basename(p)`. -/
def fileBasename (p : Path) : String := p.getLast?.getD ""

/-- The architecture name `path.basename(path.dirname(p))` of a relative path `p`. -/
def dirBasename (p : Path) : String := p.dropLast.getLast?.getD "."

/-- The gradle target built for a module
(`:vendored_sdk${sdkNumber}_${gradleProject}:copyReleaseJniLibsProjectOnly`). -/
def gradleTarget (module : String) (sdkNumber : Nat) : String :=
  ":vendored_sdk" ++ toString sdkNumber ++ "_" ++ slashToUnderscore module ++
    ":copyReleaseJniLibsProjectOnly"

/-- The module root `path.join(ANDROID_DIR, "vendored", "sdk" + sdkNumber, module, "android")`. -/
def moduleRootDir (env : VendoringEnv) (module : String) (sdkNumber : Nat) : Path :=
  env.androidDir ++ ["vendored", "sdk" ++ toString sdkNumber] ++ splitSlash module ++ ["android"]

/-- The module's native build descriptor `CMakeLists.txt`. -/
def cmakeFilePath (env : VendoringEnv) (module : String) (sdkNumber : Nat) : Path :=
  moduleRootDir env module sdkNumber ++ ["CMakeLists.txt"]

/-- The staging directory `<moduleRootDir>/src/main/jniLibs`. -/
def jniLibDirPath (env : VendoringEnv) (module : String) (sdkNumber : Nat) : Path :=
  moduleRootDir env module sdkNumber ++ ["src", "main", "jniLibs"]

/-- The build tool's intermediate output directory
`<moduleRootDir>/build/intermediates/library_jni/release/jni`. -/
def buildLibDirPath (env : VendoringEnv) (module : String) (sdkNumber : Nat) : Path :=
  moduleRootDir env module sdkNumber ++ ["build", "intermediates", "library_jni", "release", "jni"]

/-- The staging actions for one harvested shared library: create the
per-architecture directory, then copy the file to
`jniLibs/<architecture>/<filename>` (architecture = containing directory
name).  The source runs these copies under `Promise.all`; the trace
serializes them in glob order, which the claims never distinguish. -/
def stageLibActions (jniLibDir buildLibDir : Path) (file : Path) : List Action :=
  let srcPath := buildLibDir ++ file
  let archName := dirBasename file
  let dstPath := jniLibDir ++ [archName, fileBasename file]
  [Action.ensureDir (jniLibDir ++ [archName]), Action.copyFile srcPath dstPath]

/-- The prebuilder `maybePrebuildSharedLibsAsync`: skip when no `CMakeLists.txt` exists;
otherwise spawn the scoped gradle build (propagating its failure), assert
`libFiles.length >= 0`, stage every produced `.so`, truncate the build
descriptor and delete the intermediate build directory.  Returns the trace
of performed effects and the error, if any, at which the run aborted. -/
def maybePrebuildSharedLibs (env : VendoringEnv) (module : String) (sdkNumber : Nat) :
    List Action × Option BuildError :=
  let cmakeFile := cmakeFilePath env module sdkNumber
  if !env.exists_ cmakeFile then
    ([], none)
  else
    let target := gradleTarget module sdkNumber
    if !env.buildSucceeds target then
      ([Action.spawnGradle env.androidDir target], some (BuildError.spawnFailed target))
    else
      let jniLibDir := jniLibDirPath env module sdkNumber
      let buildLibDir := buildLibDirPath env module sdkNumber
      let libFiles := env.soFiles buildLibDir
      if !decide (libFiles.length ≥ 0) then
        ([Action.spawnGradle env.androidDir target], some BuildError.assertFailed)
      else
        (Action.spawnGradle env.androidDir target ::
            (libFiles.map (stageLibActions jniLibDir buildLibDir)).flatten ++
            [Action.writeFile cmakeFile "",
             Action.removeDir (moduleRootDir env module sdkNumber ++ ["build"])],
         none)

/-! ### The orchestrator (`versionVendoredModulesAsync`) -/

/-- The constant `ANDROID_VENDORED_DIR = path.join(ANDROID_DIR, "vendored")`. -/
def androidVendoredDir (env : VendoringEnv) : Path := env.androidDir ++ ["vendored"]

/-- The unversioned root `<ANDROID_VENDORED_DIR>/unversioned`. -/
def unversionedDirPath (env : VendoringEnv) : Path := androidVendoredDir env ++ ["unversioned"]

/-- The function `vendoredDirectoryForSDK`: the versioned root `<ANDROID_VENDORED_DIR>/sdk<N>`. -/
def vendoredDirectoryForSDK (env : VendoringEnv) (sdkNumber : Nat) : Path :=
  androidVendoredDir env ++ ["sdk" ++ toString sdkNumber]

/-- The modules discovered under the unversioned root. -/
def discoveredModules (env : VendoringEnv) : List String :=
  getVendoredModuleNames (unversionedDirPath env) (env.gradlePaths (unversionedDirPath env))

/-- The modules actually processed: all discovered modules, restricted —
when `filterModules` is non-null — to those the filter contains, preserving
discovery order. -/
def selectedModules (env : VendoringEnv) (filterModules : Option (List String)) : List String :=
  match filterModules with
  | some fm => (discoveredModules env).filter (fun name => fm.contains name)
  | none => discoveredModules env

/-- The loop body for one module: delete the stale target directory, copy
every enumerated source file through the transform engine with the merged
base + override rule set, then run the native prebuild step. -/
def versionOneModule (env : VendoringEnv) (sdkNumber : Nat) (pfx : String)
    (base : RequiredTransforms) (unversionedDir versionedDir : Path) (name : String) :
    List Action × Option BuildError :=
  let moduleConfig := env.config pfx name
  let sourceDirectory := unversionedDir ++ splitSlash name
  let targetDirectory := versionedDir ++ splitSlash name
  let files := env.moduleFiles sourceDirectory
  let transforms := moduleTransforms base moduleConfig
  let copyActions := files.map
    (fun sourceFile => Action.copyWithTransforms sourceFile sourceDirectory targetDirectory transforms)
  let prebuild := maybePrebuildSharedLibs env name sdkNumber
  (Action.removeDir targetDirectory :: copyActions ++ prebuild.1, prebuild.2)

/-- Sequential processing of the selected modules; an error in one module
aborts the run, leaving the remaining modules untouched. -/
def runModules (env : VendoringEnv) (sdkNumber : Nat) (pfx : String)
    (base : RequiredTransforms) (unversionedDir versionedDir : Path) :
    List String → List Action × Option BuildError
  | [] => ([], none)
  | name :: rest =>
    let m := versionOneModule env sdkNumber pfx base unversionedDir versionedDir name
    match m.2 with
    | some e => (m.1, some e)
    | none =>
      let r := runModules env sdkNumber pfx base unversionedDir versionedDir rest
      (m.1 ++ r.1, r.2)

/-- The orchestrator `versionVendoredModulesAsync`: derive the prefix, build the merged
configuration, discover and filter the modules, and process them in order. -/
def versionVendoredModules (env : VendoringEnv) (sdkNumber : Nat)
    (filterModules : Option (List String)) : List Action × Option BuildError :=
  let pfx := versionPfx sdkNumber
  let base := baseTransformsFactory pfx
  runModules env sdkNumber pfx base (unversionedDirPath env)
    (vendoredDirectoryForSDK env sdkNumber) (selectedModules env filterModules)

/-! ### Filesystem semantics of a trace -/

/-- A filesystem: a finite association of file paths to contents (first
entry for a path wins). -/
abbrev FS := List (Path × String)

/-- The content of the file at `p`, if present. -/
def fsGet (fs : FS) (p : Path) : Option String :=
  (fs.find? (fun e => e.1 == p)).map (fun e => e.2)

/-- Writing content `c` at `p` (creating or overwriting the file). -/
def fsWrite (fs : FS) (p : Path) (c : String) : FS :=
  (p, c) :: fs.filter (fun e => !(e.1 == p))

/-- Modelled from the spec: `fs.remove p` (fs-extra, outside the embedded file) deletes the file or directory at `p`, i.e. every entry at
or under `p`; removing a non-existent path leaves the filesystem unchanged
(fs-extra's `remove` does not error on a missing path). -/
def fsRemoveAll (fs : FS) (p : Path) : FS :=
  fs.filter (fun e => !startsWithPath p e.1)

/-- The external transform engine's effect on the filesystem, as a
parameter: `copyFileWithTransformsAsync` lives in `Transforms.ts`, outside
the embedded file. -/
def CopyEngine : Type :=
  FS → Path → Path → Path → RequiredTransforms → FS

/-- Modelled from the spec: the transform engine writes only beneath the
`targetDirectory` it is called with (spec §4.3: the rewritten relative path
"is joined to `targetDirectory` to produce the destination path"). -/
def goodEngine (engine : CopyEngine) : Prop :=
  ∀ fs sourceFile sourceDirectory targetDirectory transforms p,
    startsWithPath targetDirectory p = false →
    fsGet (engine fs sourceFile sourceDirectory targetDirectory transforms) p = fsGet fs p

/-- The filesystem effect of one action.  `spawnGradle` only affects the
external build tool's intermediate outputs, which the model reads through
`VendoringEnv.soFiles`; `ensureDir` creates directories, which the file
association represents implicitly. -/
def applyAction (engine : CopyEngine) (fs : FS) : Action → FS
  | .removeDir p => fsRemoveAll fs p
  | .copyWithTransforms f sd td tr => engine fs f sd td tr
  | .spawnGradle _ _ => fs
  | .ensureDir _ => fs
  | .copyFile src dst =>
    match fsGet fs src with
    | some c => fsWrite fs dst c
    | none => fs
  | .writeFile p c => fsWrite fs p c

/-- The filesystem after a trace of actions. -/
def applyTrace (engine : CopyEngine) (fs : FS) (trace : List Action) : FS :=
  trace.foldl (applyAction engine) fs

/-- The directories or files an action creates, deletes or modifies (for
`copyWithTransforms` the engine's writes all lie under the recorded target
directory, by `goodEngine`). -/
def actionWrites : Action → List Path
  | .removeDir p => [p]
  | .copyWithTransforms _ _ td _ => [td]
  | .spawnGradle _ _ => []
  | .ensureDir p => [p]
  | .copyFile _ dst => [dst]
  | .writeFile p _ => [p]

/-- A transform engine with no filesystem effect, used to instantiate
engine-generic statements at a concrete input. -/
def idEngine : CopyEngine := fun fs _ _ _ _ => fs

/-- A concrete test environment: two vendored modules `modA` (with a
per-module path-rule override) and `modB`, one stray file, no native build
descriptors. -/
def sampleEnv : VendoringEnv where
  androidDir := ["repo", "android"]
  config := fun _ name =>
    if name == "modA" then
      some { path := some [{ find := Pattern.lit "Sample", replaceWith := "Sampled" }] }
    else none
  gradlePaths := fun dir =>
    [dir ++ ["modA", "android", "build.gradle"],
     dir ++ ["modB", "android", "build.gradle"],
     dir ++ ["README.md"]]
  moduleFiles := fun dir => [dir ++ ["src", "main", "java", "A.java"]]
  exists_ := fun _ => false
  buildSucceeds := fun _ => true
  soFiles := fun _ => []

/-- Variant of `sampleEnv` with a native build descriptor present and a failing
external build. -/
def sampleFailEnv : VendoringEnv :=
  { sampleEnv with exists_ := fun _ => true, buildSucceeds := fun _ => false }

/-- Variant of `sampleEnv` with a native build descriptor present, a succeeding build
and two produced shared libraries. -/
def samplePrebuildEnv : VendoringEnv :=
  { sampleEnv with
    exists_ := fun _ => true
    soFiles := fun _ => [["arm64-v8a", "libfoo.so"], ["x86", "libfoo.so"]] }

/-- Variant of `sampleEnv` with a native build descriptor present, a succeeding build
and zero produced shared libraries. -/
def sampleZeroLibEnv : VendoringEnv :=
  { sampleEnv with exists_ := fun _ => true }

/-- In a trace, every call into the transform engine for a target directory
is preceded by the removal of that target directory. -/
def removedBeforeCopy (t : List Action) : Prop :=
  ∀ (i : Nat) (f sd td : Path) (tr : RequiredTransforms),
    t[i]? = some (Action.copyWithTransforms f sd td tr) →
    ∃ j, j < i ∧ t[j]? = some (Action.removeDir td)

/-! ## Lemmas -/

theorem startsWithPath_refl (p : Path) : startsWithPath p p = true := by
  induction p with
  | nil => rfl
  | cons a as ih => simp [startsWithPath, ih]

theorem startsWithPath_trans {a b c : Path}
    (hab : startsWithPath a b = true) (hbc : startsWithPath b c = true) :
    startsWithPath a c = true := by
  induction a generalizing b c with
  | nil => rfl
  | cons x xs ih =>
    cases b with
    | nil => simp [startsWithPath] at hab
    | cons y ys =>
      cases c with
      | nil => simp [startsWithPath] at hbc
      | cons z zs =>
        simp only [startsWithPath, Bool.and_eq_true, beq_iff_eq] at hab hbc ⊢
        exact ⟨hab.1.trans hbc.1, ih hab.2 hbc.2⟩

theorem startsWithPath_append (base rest : Path) :
    startsWithPath base (base ++ rest) = true := by
  induction base with
  | nil => rfl
  | cons a as ih => simp [startsWithPath, ih]

theorem digitVal_digitChar : ∀ d : Nat, d < 10 → digitVal (Nat.digitChar d) = d := by
  decide

theorem toDigitsCore_foldl (fuel : Nat) :
    ∀ (n : Nat) (ds : List Char), n < fuel →
      (Nat.toDigitsCore 10 fuel n ds).foldl (fun acc c => 10 * acc + digitVal c) 0 =
        ds.foldl (fun acc c => 10 * acc + digitVal c) n := by
  induction fuel with
  | zero => intro n ds h; omega
  | succ fuel ih =>
    intro n ds h
    rw [Nat.toDigitsCore]
    by_cases hz : n / 10 = 0
    · have hn : n < 10 := by omega
      simp only [hz, if_true, List.foldl]
      have : 10 * 0 + digitVal (Nat.digitChar (n % 10)) = n := by
        rw [digitVal_digitChar (n % 10) (Nat.mod_lt n (by omega))]
        omega
      rw [this]
    · have hge : 10 ≤ n := by
        by_contra hlt
        exact hz (Nat.div_eq_of_lt (by omega))
      have hfuel : n / 10 < fuel := by
        have h1 : n / 10 < n := Nat.div_lt_self (by omega) (by omega)
        omega
      simp only [hz, if_false]
      rw [ih (n / 10) (Nat.digitChar (n % 10) :: ds) hfuel]
      simp only [List.foldl]
      have : 10 * (n / 10) + digitVal (Nat.digitChar (n % 10)) = n := by
        rw [digitVal_digitChar (n % 10) (Nat.mod_lt n (by omega))]
        omega
      rw [this]

theorem decValue_toDigits (n : Nat) : decValue (Nat.toDigits 10 n) = n := by
  unfold Nat.toDigits decValue
  rw [toDigitsCore_foldl (n + 1) n [] (Nat.lt_succ_self n)]
  rfl

theorem natRepr_injective : ∀ m n : Nat, Nat.repr m = Nat.repr n → m = n := by
  intro m n h
  unfold Nat.repr at h
  have hd : Nat.toDigits 10 m = Nat.toDigits 10 n := by
    have := congrArg String.data h
    simpa [List.asString] using this
  have := congrArg decValue hd
  rwa [decValue_toDigits, decValue_toDigits] at this

theorem versionPfx_injective :
    ∀ m n : Nat, versionPfx m = versionPfx n → m = n := by
  intro m n h
  apply natRepr_injective
  have hdata := congrArg String.data h
  simp only [versionPfx, toString, String.data_append, List.append_assoc] at hdata
  have h1 := List.append_cancel_left hdata
  have h2 := List.append_cancel_right h1
  exact String.ext h2

theorem find?_filter_eq (fs : FS) (p : Path) (keep : Path × String → Bool)
    (h : ∀ c, keep (p, c) = true) :
    (fs.filter keep).find? (fun e => e.1 == p) = fs.find? (fun e => e.1 == p) := by
  induction fs with
  | nil => rfl
  | cons e rest ih =>
    obtain ⟨q, c⟩ := e
    by_cases hp : q = p
    · subst hp
      simp [List.filter, h c, List.find?]
    · have hqp : (q == p) = false := by simp [hp]
      by_cases hk : keep (q, c) = true
      · simp [List.filter, hk, List.find?, hqp, ih]
      · simp only [Bool.not_eq_true] at hk
        simp [List.filter, hk, List.find?, hqp, ih]

theorem fsGet_filter (fs : FS) (p : Path) (keep : Path × String → Bool)
    (h : ∀ c, keep (p, c) = true) :
    fsGet (fs.filter keep) p = fsGet fs p := by
  unfold fsGet
  rw [find?_filter_eq fs p keep h]

theorem fsGet_fsWrite_ne (fs : FS) (q p : Path) (c : String) (h : p ≠ q) :
    fsGet (fsWrite fs q c) p = fsGet fs p := by
  have hqp : (q == p) = false := beq_eq_false_iff_ne.mpr (Ne.symm h)
  unfold fsWrite fsGet
  simp only [List.find?, hqp]
  rw [find?_filter_eq fs p _
    (fun c' => by
      show (!(p == q)) = true
      rw [beq_eq_false_iff_ne.mpr h]
      rfl)]

theorem fsGet_fsRemoveAll_notUnder (fs : FS) (q p : Path)
    (h : startsWithPath q p = false) :
    fsGet (fsRemoveAll fs q) p = fsGet fs p := by
  unfold fsRemoveAll
  exact fsGet_filter fs p _ (fun _ => by simp [h])

/-- Deleting a path under which no file exists is a no-op. -/
theorem fsRemoveAll_noop (fs : FS) (p : Path)
    (h : ∀ e ∈ fs, startsWithPath p e.1 = false) :
    fsRemoveAll fs p = fs := by
  unfold fsRemoveAll
  rw [List.filter_eq_self]
  intro e he
  simp [h e he]

/-- Frame property of one action: a path outside every written directory
keeps its content. -/
theorem applyAction_frame (engine : CopyEngine) (heng : goodEngine engine)
    (fs : FS) (a : Action) (p : Path)
    (h : ∀ q ∈ actionWrites a, startsWithPath q p = false) :
    fsGet (applyAction engine fs a) p = fsGet fs p := by
  cases a with
  | removeDir q =>
    exact fsGet_fsRemoveAll_notUnder fs q p (h q (by simp [actionWrites]))
  | copyWithTransforms f sd td tr =>
    exact heng fs f sd td tr p (h td (by simp [actionWrites]))
  | spawnGradle cwd t => rfl
  | ensureDir q => rfl
  | copyFile src dst =>
    have hd : startsWithPath dst p = false := h dst (by simp [actionWrites])
    have hne : p ≠ dst := by
      intro e; rw [e, startsWithPath_refl] at hd; exact Bool.noConfusion hd
    simp only [applyAction]
    cases fsGet fs src with
    | none => rfl
    | some c => exact fsGet_fsWrite_ne fs dst p c hne
  | writeFile q c =>
    have hq : startsWithPath q p = false := h q (by simp [actionWrites])
    have hne : p ≠ q := by
      intro e; rw [e, startsWithPath_refl] at hq; exact Bool.noConfusion hq
    exact fsGet_fsWrite_ne fs q p c hne


/-- Frame property of a whole trace. -/
theorem applyTrace_frame (engine : CopyEngine) (heng : goodEngine engine)
    (trace : List Action) (fs : FS) (p : Path)
    (h : ∀ a ∈ trace, ∀ q ∈ actionWrites a, startsWithPath q p = false) :
    fsGet (applyTrace engine fs trace) p = fsGet fs p := by
  induction trace generalizing fs with
  | nil => rfl
  | cons a rest ih =>
    show fsGet (applyTrace engine (applyAction engine fs a) rest) p = fsGet fs p
    rw [ih (applyAction engine fs a) (fun b hb => h b (List.mem_cons_of_mem a hb))]
    exact applyAction_frame engine heng fs a p (h a (List.mem_cons_self a rest))

theorem maybePrebuild_noDescriptor (env : VendoringEnv) (module : String) (sdk : Nat)
    (h : env.exists_ (cmakeFilePath env module sdk) = false) :
    maybePrebuildSharedLibs env module sdk = ([], none) := by
  simp [maybePrebuildSharedLibs, h]

theorem maybePrebuild_buildFail (env : VendoringEnv) (module : String) (sdk : Nat)
    (hc : env.exists_ (cmakeFilePath env module sdk) = true)
    (hb : env.buildSucceeds (gradleTarget module sdk) = false) :
    maybePrebuildSharedLibs env module sdk =
      ([Action.spawnGradle env.androidDir (gradleTarget module sdk)],
       some (BuildError.spawnFailed (gradleTarget module sdk))) := by
  simp [maybePrebuildSharedLibs, hc, hb]

theorem maybePrebuild_success (env : VendoringEnv) (module : String) (sdk : Nat)
    (hc : env.exists_ (cmakeFilePath env module sdk) = true)
    (hb : env.buildSucceeds (gradleTarget module sdk) = true) :
    maybePrebuildSharedLibs env module sdk =
      (Action.spawnGradle env.androidDir (gradleTarget module sdk) ::
        ((env.soFiles (buildLibDirPath env module sdk)).map
          (stageLibActions (jniLibDirPath env module sdk) (buildLibDirPath env module sdk))).flatten ++
        [Action.writeFile (cmakeFilePath env module sdk) "",
         Action.removeDir (moduleRootDir env module sdk ++ ["build"])],
       none) := by
  simp [maybePrebuildSharedLibs, hc, hb, Nat.zero_le]

theorem prebuild_no_copyWithTransforms (env : VendoringEnv) (module : String) (sdk : Nat) :
    ∀ a ∈ (maybePrebuildSharedLibs env module sdk).1,
      ∀ (f sd td : Path) (tr : RequiredTransforms),
        a ≠ Action.copyWithTransforms f sd td tr := by
  intro a ha f sd td tr
  cases hc : env.exists_ (cmakeFilePath env module sdk) with
  | false => rw [maybePrebuild_noDescriptor env module sdk hc] at ha; simp at ha
  | true =>
    cases hb : env.buildSucceeds (gradleTarget module sdk) with
    | false =>
      rw [maybePrebuild_buildFail env module sdk hc hb] at ha
      simp only [List.mem_cons, List.not_mem_nil, or_false] at ha
      subst ha; intro h; exact Action.noConfusion h
    | true =>
      rw [maybePrebuild_success env module sdk hc hb] at ha
      dsimp only at ha
      rw [List.mem_append, List.mem_cons] at ha
      rcases ha with (rfl | ha) | ha
      · intro h; exact Action.noConfusion h
      · rw [List.mem_flatten] at ha
        obtain ⟨l, hl, hal⟩ := ha
        rw [List.mem_map] at hl
        obtain ⟨file, _, rfl⟩ := hl
        simp only [stageLibActions, List.mem_cons, List.not_mem_nil, or_false] at hal
        rcases hal with rfl | rfl
        · intro h; exact Action.noConfusion h
        · intro h; exact Action.noConfusion h
      · simp only [List.mem_cons, List.not_mem_nil, or_false] at ha
        rcases ha with rfl | rfl
        · intro h; exact Action.noConfusion h
        · intro h; exact Action.noConfusion h

theorem prebuild_writes_under (env : VendoringEnv) (module : String) (sdk : Nat) :
    ∀ a ∈ (maybePrebuildSharedLibs env module sdk).1, ∀ q ∈ actionWrites a,
      ∃ suffix, q = moduleRootDir env module sdk ++ suffix := by
  intro a ha q hq
  cases hc : env.exists_ (cmakeFilePath env module sdk) with
  | false => rw [maybePrebuild_noDescriptor env module sdk hc] at ha; simp at ha
  | true =>
    cases hb : env.buildSucceeds (gradleTarget module sdk) with
    | false =>
      rw [maybePrebuild_buildFail env module sdk hc hb] at ha
      simp only [List.mem_cons, List.not_mem_nil, or_false] at ha
      subst ha; simp [actionWrites] at hq
    | true =>
      rw [maybePrebuild_success env module sdk hc hb] at ha
      dsimp only at ha
      rw [List.mem_append, List.mem_cons] at ha
      rcases ha with (rfl | ha) | ha
      · simp [actionWrites] at hq
      · rw [List.mem_flatten] at ha
        obtain ⟨l, hl, hal⟩ := ha
        rw [List.mem_map] at hl
        obtain ⟨file, _, rfl⟩ := hl
        simp only [stageLibActions, List.mem_cons, List.not_mem_nil, or_false] at hal
        rcases hal with rfl | rfl
        · simp only [actionWrites, List.mem_cons, List.not_mem_nil, or_false] at hq
          subst hq
          exact ⟨["src", "main", "jniLibs", dirBasename file],
            by simp [jniLibDirPath, List.append_assoc]⟩
        · simp only [actionWrites, List.mem_cons, List.not_mem_nil, or_false] at hq
          subst hq
          exact ⟨["src", "main", "jniLibs", dirBasename file, fileBasename file],
            by simp [jniLibDirPath, List.append_assoc]⟩
      · simp only [List.mem_cons, List.not_mem_nil, or_false] at ha
        rcases ha with rfl | rfl
        · simp only [actionWrites, List.mem_cons, List.not_mem_nil, or_false] at hq
          subst hq
          exact ⟨["CMakeLists.txt"], by simp [cmakeFilePath]⟩
        · simp only [actionWrites, List.mem_cons, List.not_mem_nil, or_false] at hq
          subst hq
          exact ⟨["build"], rfl⟩

theorem versionOneModule_eq (env : VendoringEnv) (sdk : Nat) (pfx : String)
    (base : RequiredTransforms) (uv vv : Path) (name : String) :
    versionOneModule env sdk pfx base uv vv name =
      (Action.removeDir (vv ++ splitSlash name) ::
        (env.moduleFiles (uv ++ splitSlash name)).map
          (fun sourceFile => Action.copyWithTransforms sourceFile (uv ++ splitSlash name)
            (vv ++ splitSlash name) (moduleTransforms base (env.config pfx name))) ++
        (maybePrebuildSharedLibs env name sdk).1,
       (maybePrebuildSharedLibs env name sdk).2) := rfl

theorem moduleTransforms_none (base : RequiredTransforms) :
    moduleTransforms base none = base := by
  cases base
  simp [moduleTransforms]

theorem runModules_nil (env : VendoringEnv) (sdk : Nat) (pfx : String)
    (base : RequiredTransforms) (uv vv : Path) :
    runModules env sdk pfx base uv vv [] = ([], none) := rfl

theorem runModules_cons_err (env : VendoringEnv) (sdk : Nat) (pfx : String)
    (base : RequiredTransforms) (uv vv : Path) (name : String) (rest : List String)
    (e : BuildError) (he : (versionOneModule env sdk pfx base uv vv name).2 = some e) :
    runModules env sdk pfx base uv vv (name :: rest) =
      ((versionOneModule env sdk pfx base uv vv name).1, some e) := by
  conv_lhs => unfold runModules
  dsimp only
  rw [he]

theorem runModules_cons_ok (env : VendoringEnv) (sdk : Nat) (pfx : String)
    (base : RequiredTransforms) (uv vv : Path) (name : String) (rest : List String)
    (he : (versionOneModule env sdk pfx base uv vv name).2 = none) :
    runModules env sdk pfx base uv vv (name :: rest) =
      ((versionOneModule env sdk pfx base uv vv name).1 ++
        (runModules env sdk pfx base uv vv rest).1,
       (runModules env sdk pfx base uv vv rest).2) := by
  conv_lhs => unfold runModules
  dsimp only
  rw [he]

theorem mem_runModules_trace (env : VendoringEnv) (sdk : Nat) (pfx : String)
    (base : RequiredTransforms) (uv vv : Path) :
    ∀ (names : List String) (a : Action), a ∈ (runModules env sdk pfx base uv vv names).1 →
      ∃ name, name ∈ names ∧ a ∈ (versionOneModule env sdk pfx base uv vv name).1 := by
  intro names
  induction names with
  | nil => intro a h; rw [runModules_nil] at h; exact absurd h (List.not_mem_nil a)
  | cons n rest ih =>
    intro a h
    cases he : (versionOneModule env sdk pfx base uv vv n).2 with
    | some e =>
      rw [runModules_cons_err env sdk pfx base uv vv n rest e he] at h
      exact ⟨n, List.mem_cons_self n rest, h⟩
    | none =>
      rw [runModules_cons_ok env sdk pfx base uv vv n rest he] at h
      dsimp only at h
      rw [List.mem_append] at h
      rcases h with h | h
      · exact ⟨n, List.mem_cons_self n rest, h⟩
      · obtain ⟨name, hn, ha⟩ := ih a h
        exact ⟨name, List.mem_cons_of_mem n hn, ha⟩

theorem mem_versionOneModule_cases (env : VendoringEnv) (sdk : Nat) (pfx : String)
    (base : RequiredTransforms) (uv vv : Path) (name : String) (a : Action)
    (h : a ∈ (versionOneModule env sdk pfx base uv vv name).1) :
    a = Action.removeDir (vv ++ splitSlash name) ∨
    (∃ sourceFile, sourceFile ∈ env.moduleFiles (uv ++ splitSlash name) ∧
      a = Action.copyWithTransforms sourceFile (uv ++ splitSlash name)
        (vv ++ splitSlash name) (moduleTransforms base (env.config pfx name))) ∨
    a ∈ (maybePrebuildSharedLibs env name sdk).1 := by
  rw [versionOneModule_eq] at h
  dsimp only at h
  rw [List.mem_append, List.mem_cons] at h
  rcases h with (rfl | h) | h
  · exact Or.inl rfl
  · rw [List.mem_map] at h
    obtain ⟨f, hf, rfl⟩ := h
    exact Or.inr (Or.inl ⟨f, hf, rfl⟩)
  · exact Or.inr (Or.inr h)

theorem applyTrace_append (engine : CopyEngine) (fs : FS) (t1 t2 : List Action) :
    applyTrace engine fs (t1 ++ t2) = applyTrace engine (applyTrace engine fs t1) t2 := by
  unfold applyTrace
  rw [List.foldl_append]

/-! ## Claims -/

/-- C1: for every SDK number N the derived version prefix equals the string
`abi<N>_0_0`; it is a pure deterministic function of N alone (equal SDK
numbers give equal prefixes) and distinct SDK numbers give distinct
prefixes. -/
theorem claim_C1_version_prefix_unique :
    (∀ n : Nat, versionPfx n = "abi" ++ toString n ++ "_0_0") ∧
    (∀ m n : Nat, m = n → versionPfx m = versionPfx n) ∧
    Function.Injective versionPfx :=
  ⟨fun _ => rfl, fun _ _ h => congrArg versionPfx h,
   fun m n h => versionPfx_injective m n h⟩

/-- C6: for a module whose versioned tree has no native build descriptor the
prebuild step is a no-op, not an error: no external build is spawned, no
staging happens, no descriptor is truncated, and the filesystem is left
unchanged. -/
theorem claim_C6_no_descriptor_noop (env : VendoringEnv) (module : String) (sdk : Nat)
    (engine : CopyEngine) (fs : FS)
    (h : env.exists_ (cmakeFilePath env module sdk) = false) :
    maybePrebuildSharedLibs env module sdk = ([], none) ∧
    applyTrace engine fs (maybePrebuildSharedLibs env module sdk).1 = fs := by
  refine ⟨maybePrebuild_noDescriptor env module sdk h, ?_⟩
  rw [maybePrebuild_noDescriptor env module sdk h]
  rfl

/-- C6 witness: the concrete environment without build descriptors. -/
theorem claim_C6_witness :
    maybePrebuildSharedLibs sampleEnv "modA" 45 = ([], none) ∧
    applyTrace idEngine [] (maybePrebuildSharedLibs sampleEnv "modA" 45).1 = [] :=
  claim_C6_no_descriptor_noop sampleEnv "modA" 45 idEngine [] rfl

/-- C10: a non-null but empty filter list processes zero modules and performs
no filesystem changes at all, unlike a null filter, which processes every
discovered module. -/
theorem claim_C10_empty_filter (env : VendoringEnv) (sdk : Nat)
    (engine : CopyEngine) (fs : FS) :
    versionVendoredModules env sdk (some []) = ([], none) ∧
    selectedModules env (some []) = [] ∧
    applyTrace engine fs (versionVendoredModules env sdk (some [])).1 = fs ∧
    selectedModules env none = discoveredModules env := by
  have hsel : selectedModules env (some []) = [] := by
    unfold selectedModules
    induction discoveredModules env with
    | nil => rfl
    | cons x xs ih => simp [List.filter]
  have hrun : versionVendoredModules env sdk (some []) = ([], none) := by
    unfold versionVendoredModules
    rw [hsel]
    rfl
  exact ⟨hrun, hsel, by rw [hrun]; rfl, rfl⟩

/-- C9: the prebuilder artifact-count assertion `libFiles.length >= 0` holds
for every list of harvested artifacts, the prebuilder can never fail with an
assertion error, and a successful build with zero artifacts is accepted as a
no-op of the staging step (descriptor still truncated, intermediate build
directory still removed, no error). -/
theorem claim_C9_assert_never_fails (env : VendoringEnv) (module : String) (sdk : Nat)
    (hc : env.exists_ (cmakeFilePath env module sdk) = true)
    (hb : env.buildSucceeds (gradleTarget module sdk) = true)
    (hz : env.soFiles (buildLibDirPath env module sdk) = []) :
    (∀ libFiles : List Path, decide (libFiles.length ≥ 0) = true) ∧
    (∀ (envAny : VendoringEnv) (m : String) (s : Nat),
      (maybePrebuildSharedLibs envAny m s).2 ≠ some BuildError.assertFailed) ∧
    maybePrebuildSharedLibs env module sdk =
      ([Action.spawnGradle env.androidDir (gradleTarget module sdk),
        Action.writeFile (cmakeFilePath env module sdk) "",
        Action.removeDir (moduleRootDir env module sdk ++ ["build"])], none) := by
  refine ⟨fun l => by simp, ?_, ?_⟩
  · intro envAny m s
    cases hc2 : envAny.exists_ (cmakeFilePath envAny m s) with
    | false => rw [maybePrebuild_noDescriptor envAny m s hc2]; simp
    | true =>
      cases hb2 : envAny.buildSucceeds (gradleTarget m s) with
      | false => rw [maybePrebuild_buildFail envAny m s hc2 hb2]; simp
      | true => rw [maybePrebuild_success envAny m s hc2 hb2]; simp
  · rw [maybePrebuild_success env module sdk hc hb, hz]
    rfl

/-- C9 witness: concrete environment with a descriptor, a succeeding build
and zero artifacts. -/
theorem claim_C9_witness :
    (∀ libFiles : List Path, decide (libFiles.length ≥ 0) = true) ∧
    (∀ (envAny : VendoringEnv) (m : String) (s : Nat),
      (maybePrebuildSharedLibs envAny m s).2 ≠ some BuildError.assertFailed) ∧
    maybePrebuildSharedLibs sampleZeroLibEnv "modA" 45 =
      ([Action.spawnGradle sampleZeroLibEnv.androidDir (gradleTarget "modA" 45),
        Action.writeFile (cmakeFilePath sampleZeroLibEnv "modA" 45) "",
        Action.removeDir (moduleRootDir sampleZeroLibEnv "modA" 45 ++ ["build"])], none) :=
  claim_C9_assert_never_fails sampleZeroLibEnv "modA" 45 rfl rfl rfl

/-- C3: when the external native build for a module fails, the error
propagates: the prebuild step performed only the spawn (no truncation, no
staging, no filesystem change), the module's step reports the error, its
filesystem effect is exactly the removal plus the transform-engine copies
done before the build, and the run aborts without touching later modules. -/
theorem claim_C3_build_failure_aborts (env : VendoringEnv) (module : String) (sdk : Nat)
    (pfx : String) (base : RequiredTransforms) (uv vv : Path) (rest : List String)
    (engine : CopyEngine) (fs : FS)
    (hc : env.exists_ (cmakeFilePath env module sdk) = true)
    (hb : env.buildSucceeds (gradleTarget module sdk) = false) :
    maybePrebuildSharedLibs env module sdk =
      ([Action.spawnGradle env.androidDir (gradleTarget module sdk)],
       some (BuildError.spawnFailed (gradleTarget module sdk))) ∧
    applyTrace engine fs (maybePrebuildSharedLibs env module sdk).1 = fs ∧
    (versionOneModule env sdk pfx base uv vv module).2 =
      some (BuildError.spawnFailed (gradleTarget module sdk)) ∧
    applyTrace engine fs (versionOneModule env sdk pfx base uv vv module).1 =
      applyTrace engine fs
        (Action.removeDir (vv ++ splitSlash module) ::
          (env.moduleFiles (uv ++ splitSlash module)).map
            (fun sourceFile => Action.copyWithTransforms sourceFile (uv ++ splitSlash module)
              (vv ++ splitSlash module) (moduleTransforms base (env.config pfx module)))) ∧
    runModules env sdk pfx base uv vv (module :: rest) =
      ((versionOneModule env sdk pfx base uv vv module).1,
       some (BuildError.spawnFailed (gradleTarget module sdk))) := by
  have h1 := maybePrebuild_buildFail env module sdk hc hb
  have h2 : (versionOneModule env sdk pfx base uv vv module).2 =
      some (BuildError.spawnFailed (gradleTarget module sdk)) := by
    rw [versionOneModule_eq]
    dsimp only
    rw [h1]
  refine ⟨h1, by rw [h1]; rfl, h2, ?_, runModules_cons_err env sdk pfx base uv vv module rest _ h2⟩
  rw [versionOneModule_eq]
  dsimp only
  rw [h1]
  dsimp only
  rw [show Action.removeDir (vv ++ splitSlash module) ::
        (env.moduleFiles (uv ++ splitSlash module)).map
          (fun sourceFile => Action.copyWithTransforms sourceFile (uv ++ splitSlash module)
            (vv ++ splitSlash module) (moduleTransforms base (env.config pfx module))) ++
        [Action.spawnGradle env.androidDir (gradleTarget module sdk)] =
      (Action.removeDir (vv ++ splitSlash module) ::
        (env.moduleFiles (uv ++ splitSlash module)).map
          (fun sourceFile => Action.copyWithTransforms sourceFile (uv ++ splitSlash module)
            (vv ++ splitSlash module) (moduleTransforms base (env.config pfx module)))) ++
        [Action.spawnGradle env.androidDir (gradleTarget module sdk)] from rfl]
  rw [applyTrace_append]
  rfl

/-- C7: after a successful external build, every harvested shared library is
staged to `jniLibs/<architecture>/<filename>` (architecture = the name of
its containing directory), and the trace places the descriptor truncation
and the deletion of the intermediate build directory after all of the
staging actions. -/
theorem claim_C7_staging_then_truncate (env : VendoringEnv) (module : String) (sdk : Nat)
    (hc : env.exists_ (cmakeFilePath env module sdk) = true)
    (hb : env.buildSucceeds (gradleTarget module sdk) = true) :
    maybePrebuildSharedLibs env module sdk =
      (Action.spawnGradle env.androidDir (gradleTarget module sdk) ::
        ((env.soFiles (buildLibDirPath env module sdk)).map
          (stageLibActions (jniLibDirPath env module sdk) (buildLibDirPath env module sdk))).flatten ++
        [Action.writeFile (cmakeFilePath env module sdk) "",
         Action.removeDir (moduleRootDir env module sdk ++ ["build"])],
       none) ∧
    (∀ file ∈ env.soFiles (buildLibDirPath env module sdk),
      stageLibActions (jniLibDirPath env module sdk) (buildLibDirPath env module sdk) file =
        [Action.ensureDir (jniLibDirPath env module sdk ++ [dirBasename file]),
         Action.copyFile (buildLibDirPath env module sdk ++ file)
           (jniLibDirPath env module sdk ++ [dirBasename file, fileBasename file])]) ∧
    (∀ file ∈ env.soFiles (buildLibDirPath env module sdk),
      Action.copyFile (buildLibDirPath env module sdk ++ file)
        (jniLibDirPath env module sdk ++ [dirBasename file, fileBasename file]) ∈
        (maybePrebuildSharedLibs env module sdk).1) := by
  have h1 := maybePrebuild_success env module sdk hc hb
  refine ⟨h1, fun file _ => rfl, ?_⟩
  intro file hf
  rw [h1]
  dsimp only
  refine List.mem_append_left _ (List.mem_cons_of_mem _ ?_)
  rw [List.mem_flatten]
  refine ⟨stageLibActions (jniLibDirPath env module sdk) (buildLibDirPath env module sdk) file,
    List.mem_map_of_mem _ hf, ?_⟩
  simp [stageLibActions]

/-- C3 witness: the concrete failing-build environment. -/
theorem claim_C3_witness :
    maybePrebuildSharedLibs sampleFailEnv "modA" 45 =
      ([Action.spawnGradle sampleFailEnv.androidDir (gradleTarget "modA" 45)],
       some (BuildError.spawnFailed (gradleTarget "modA" 45))) ∧
    applyTrace idEngine [] (maybePrebuildSharedLibs sampleFailEnv "modA" 45).1 = [] ∧
    (versionOneModule sampleFailEnv 45 "abi45_0_0" (baseTransformsFactory "abi45_0_0")
        ["u"] ["v"] "modA").2 =
      some (BuildError.spawnFailed (gradleTarget "modA" 45)) ∧
    applyTrace idEngine [] (versionOneModule sampleFailEnv 45 "abi45_0_0"
        (baseTransformsFactory "abi45_0_0") ["u"] ["v"] "modA").1 =
      applyTrace idEngine []
        (Action.removeDir (["v"] ++ splitSlash "modA") ::
          (sampleFailEnv.moduleFiles (["u"] ++ splitSlash "modA")).map
            (fun sourceFile => Action.copyWithTransforms sourceFile (["u"] ++ splitSlash "modA")
              (["v"] ++ splitSlash "modA")
              (moduleTransforms (baseTransformsFactory "abi45_0_0")
                (sampleFailEnv.config "abi45_0_0" "modA")))) ∧
    runModules sampleFailEnv 45 "abi45_0_0" (baseTransformsFactory "abi45_0_0")
        ["u"] ["v"] ["modA"] =
      ((versionOneModule sampleFailEnv 45 "abi45_0_0" (baseTransformsFactory "abi45_0_0")
          ["u"] ["v"] "modA").1,
       some (BuildError.spawnFailed (gradleTarget "modA" 45))) :=
  claim_C3_build_failure_aborts sampleFailEnv "modA" 45 "abi45_0_0"
    (baseTransformsFactory "abi45_0_0") ["u"] ["v"] [] idEngine [] rfl rfl

/-- C7 witness: the concrete environment with two produced shared
libraries. -/
theorem claim_C7_witness :
    maybePrebuildSharedLibs samplePrebuildEnv "modA" 45 =
      (Action.spawnGradle samplePrebuildEnv.androidDir (gradleTarget "modA" 45) ::
        ((samplePrebuildEnv.soFiles (buildLibDirPath samplePrebuildEnv "modA" 45)).map
          (stageLibActions (jniLibDirPath samplePrebuildEnv "modA" 45)
            (buildLibDirPath samplePrebuildEnv "modA" 45))).flatten ++
        [Action.writeFile (cmakeFilePath samplePrebuildEnv "modA" 45) "",
         Action.removeDir (moduleRootDir samplePrebuildEnv "modA" 45 ++ ["build"])],
       none) ∧
    (∀ file ∈ samplePrebuildEnv.soFiles (buildLibDirPath samplePrebuildEnv "modA" 45),
      stageLibActions (jniLibDirPath samplePrebuildEnv "modA" 45)
          (buildLibDirPath samplePrebuildEnv "modA" 45) file =
        [Action.ensureDir (jniLibDirPath samplePrebuildEnv "modA" 45 ++ [dirBasename file]),
         Action.copyFile (buildLibDirPath samplePrebuildEnv "modA" 45 ++ file)
           (jniLibDirPath samplePrebuildEnv "modA" 45 ++ [dirBasename file, fileBasename file])]) ∧
    (∀ file ∈ samplePrebuildEnv.soFiles (buildLibDirPath samplePrebuildEnv "modA" 45),
      Action.copyFile (buildLibDirPath samplePrebuildEnv "modA" 45 ++ file)
        (jniLibDirPath samplePrebuildEnv "modA" 45 ++ [dirBasename file, fileBasename file]) ∈
        (maybePrebuildSharedLibs samplePrebuildEnv "modA" 45).1) :=
  claim_C7_staging_then_truncate samplePrebuildEnv "modA" 45 rfl rfl

/-- C2: every call into the transform engine during a run passes the base
path rules followed by that module's override path rules and the base
content rules followed by that module's override content rules, in that
order; a module with no configuration entry gets exactly the base rules. -/
theorem claim_C2_merged_transforms (env : VendoringEnv) (sdk : Nat)
    (fm : Option (List String)) (f sd td : Path) (tr : RequiredTransforms)
    (h : Action.copyWithTransforms f sd td tr ∈ (versionVendoredModules env sdk fm).1) :
    ∃ name, name ∈ selectedModules env fm ∧
      td = vendoredDirectoryForSDK env sdk ++ splitSlash name ∧
      tr = moduleTransforms (baseTransformsFactory (versionPfx sdk))
             (env.config (versionPfx sdk) name) ∧
      tr.path = (baseTransformsFactory (versionPfx sdk)).path ++
        ((env.config (versionPfx sdk) name).bind FileTransforms.path).getD [] ∧
      tr.content = (baseTransformsFactory (versionPfx sdk)).content ++
        ((env.config (versionPfx sdk) name).bind FileTransforms.content).getD [] ∧
      (env.config (versionPfx sdk) name = none →
        tr = baseTransformsFactory (versionPfx sdk)) := by
  unfold versionVendoredModules at h
  dsimp only at h
  obtain ⟨name, hname, hmem⟩ := mem_runModules_trace env sdk (versionPfx sdk)
    (baseTransformsFactory (versionPfx sdk)) (unversionedDirPath env)
    (vendoredDirectoryForSDK env sdk) (selectedModules env fm) _ h
  rcases mem_versionOneModule_cases env sdk (versionPfx sdk)
      (baseTransformsFactory (versionPfx sdk)) (unversionedDirPath env)
      (vendoredDirectoryForSDK env sdk) name _ hmem with
    h1 | ⟨sf, hsf, h1⟩ | h1
  · exact absurd h1 (fun e => Action.noConfusion e)
  · injection h1 with e1 e2 e3 e4
    subst e3
    subst e4
    refine ⟨name, hname, rfl, rfl, rfl, rfl, fun hcfg => ?_⟩
    show moduleTransforms (baseTransformsFactory (versionPfx sdk))
      (env.config (versionPfx sdk) name) = baseTransformsFactory (versionPfx sdk)
    rw [hcfg]
    exact moduleTransforms_none (baseTransformsFactory (versionPfx sdk))
  · exact absurd rfl (prebuild_no_copyWithTransforms env name sdk _ h1 f sd td tr)

/-- C2 witness: the copy action of module `modB` (no configuration entry)
inside the concrete run's trace. -/
theorem claim_C2_witness :
    ∃ name, name ∈ selectedModules sampleEnv none ∧
      vendoredDirectoryForSDK sampleEnv 45 ++ splitSlash "modB" =
        vendoredDirectoryForSDK sampleEnv 45 ++ splitSlash name ∧
      moduleTransforms (baseTransformsFactory (versionPfx 45))
          (sampleEnv.config (versionPfx 45) "modB") =
        moduleTransforms (baseTransformsFactory (versionPfx 45))
          (sampleEnv.config (versionPfx 45) name) ∧
      (moduleTransforms (baseTransformsFactory (versionPfx 45))
          (sampleEnv.config (versionPfx 45) "modB")).path =
        (baseTransformsFactory (versionPfx 45)).path ++
          ((sampleEnv.config (versionPfx 45) name).bind FileTransforms.path).getD [] ∧
      (moduleTransforms (baseTransformsFactory (versionPfx 45))
          (sampleEnv.config (versionPfx 45) "modB")).content =
        (baseTransformsFactory (versionPfx 45)).content ++
          ((sampleEnv.config (versionPfx 45) name).bind FileTransforms.content).getD [] ∧
      (sampleEnv.config (versionPfx 45) name = none →
        moduleTransforms (baseTransformsFactory (versionPfx 45))
            (sampleEnv.config (versionPfx 45) "modB") =
          baseTransformsFactory (versionPfx 45)) :=
  claim_C2_merged_transforms sampleEnv 45 none
    (unversionedDirPath sampleEnv ++ splitSlash "modB" ++ ["src", "main", "java", "A.java"])
    (unversionedDirPath sampleEnv ++ splitSlash "modB")
    (vendoredDirectoryForSDK sampleEnv 45 ++ splitSlash "modB")
    (moduleTransforms (baseTransformsFactory (versionPfx 45))
      (sampleEnv.config (versionPfx 45) "modB"))
    (by
      have htr : (versionVendoredModules sampleEnv 45 none).1 =
          [Action.removeDir (vendoredDirectoryForSDK sampleEnv 45 ++ splitSlash "modA"),
           Action.copyWithTransforms
             (unversionedDirPath sampleEnv ++ splitSlash "modA" ++ ["src", "main", "java", "A.java"])
             (unversionedDirPath sampleEnv ++ splitSlash "modA")
             (vendoredDirectoryForSDK sampleEnv 45 ++ splitSlash "modA")
             (moduleTransforms (baseTransformsFactory (versionPfx 45))
               (sampleEnv.config (versionPfx 45) "modA")),
           Action.removeDir (vendoredDirectoryForSDK sampleEnv 45 ++ splitSlash "modB"),
           Action.copyWithTransforms
             (unversionedDirPath sampleEnv ++ splitSlash "modB" ++ ["src", "main", "java", "A.java"])
             (unversionedDirPath sampleEnv ++ splitSlash "modB")
             (vendoredDirectoryForSDK sampleEnv 45 ++ splitSlash "modB")
             (moduleTransforms (baseTransformsFactory (versionPfx 45))
               (sampleEnv.config (versionPfx 45) "modB"))] := rfl
      rw [htr]
      exact List.Mem.tail _ (List.Mem.tail _ (List.Mem.tail _ (List.Mem.head _))))

theorem removedBeforeCopy_append {t1 t2 : List Action}
    (h1 : removedBeforeCopy t1) (h2 : removedBeforeCopy t2) :
    removedBeforeCopy (t1 ++ t2) := by
  intro i f sd td tr hi
  by_cases hlt : i < t1.length
  · rw [List.getElem?_append, if_pos hlt] at hi
    obtain ⟨j, hj, hjv⟩ := h1 i f sd td tr hi
    exact ⟨j, hj, by rw [List.getElem?_append, if_pos (Nat.lt_trans hj hlt)]; exact hjv⟩
  · push_neg at hlt
    rw [List.getElem?_append_right hlt] at hi
    obtain ⟨j, hj, hjv⟩ := h2 (i - t1.length) f sd td tr hi
    refine ⟨t1.length + j, by omega, ?_⟩
    rw [List.getElem?_append_right (by omega)]
    rw [show t1.length + j - t1.length = j by omega]
    exact hjv

theorem removedBeforeCopy_versionOneModule (env : VendoringEnv) (sdk : Nat) (pfx : String)
    (base : RequiredTransforms) (uv vv : Path) (name : String) :
    removedBeforeCopy (versionOneModule env sdk pfx base uv vv name).1 := by
  intro i f sd td tr hi
  have hmem : Action.copyWithTransforms f sd td tr ∈
      (versionOneModule env sdk pfx base uv vv name).1 := List.getElem?_mem hi
  have htd : td = vv ++ splitSlash name := by
    rcases mem_versionOneModule_cases env sdk pfx base uv vv name _ hmem with
      h1 | ⟨sf, _, h1⟩ | h1
    · exact absurd h1 (fun e => Action.noConfusion e)
    · cases h1
      rfl
    · exact absurd rfl (prebuild_no_copyWithTransforms env name sdk _ h1 f sd td tr)
  have hzero : (versionOneModule env sdk pfx base uv vv name).1[0]? =
      some (Action.removeDir (vv ++ splitSlash name)) := by
    rw [versionOneModule_eq]
    simp
  have hne : i ≠ 0 := by
    intro e
    rw [e, hzero] at hi
    simp at hi
  exact ⟨0, Nat.pos_of_ne_zero hne, htd ▸ hzero⟩

theorem removedBeforeCopy_runModules (env : VendoringEnv) (sdk : Nat) (pfx : String)
    (base : RequiredTransforms) (uv vv : Path) :
    ∀ names : List String, removedBeforeCopy (runModules env sdk pfx base uv vv names).1 := by
  intro names
  induction names with
  | nil => intro i f sd td tr hi; rw [runModules_nil] at hi; simp at hi
  | cons n rest ih =>
    cases he : (versionOneModule env sdk pfx base uv vv n).2 with
    | some e =>
      rw [runModules_cons_err env sdk pfx base uv vv n rest e he]
      exact removedBeforeCopy_versionOneModule env sdk pfx base uv vv n
    | none =>
      rw [runModules_cons_ok env sdk pfx base uv vv n rest he]
      exact removedBeforeCopy_append
        (removedBeforeCopy_versionOneModule env sdk pfx base uv vv n) ih

/-- C4: in every run, the removal of a module's target directory precedes
every call into the transform engine for that target directory; at the head
of each module's step stands exactly that removal; and removing a path under
which nothing exists is a no-op, not an error. -/
theorem claim_C4_remove_before_copies (env : VendoringEnv) (sdk : Nat)
    (fm : Option (List String)) (pfx : String) (base : RequiredTransforms)
    (uv vv : Path) (name : String) (fs : FS) (p : Path)
    (hfs : ∀ e ∈ fs, startsWithPath p e.1 = false) :
    removedBeforeCopy (versionVendoredModules env sdk fm).1 ∧
    (versionOneModule env sdk pfx base uv vv name).1.head? =
      some (Action.removeDir (vv ++ splitSlash name)) ∧
    fsRemoveAll fs p = fs := by
  refine ⟨?_, ?_, fsRemoveAll_noop fs p hfs⟩
  · unfold versionVendoredModules
    dsimp only
    exact removedBeforeCopy_runModules env sdk _ _ _ _ _
  · rw [versionOneModule_eq]
    rfl

/-- C4 witness: the concrete run, a concrete module step and an empty
filesystem. -/
theorem claim_C4_witness :
    removedBeforeCopy (versionVendoredModules sampleEnv 45 none).1 ∧
    (versionOneModule sampleEnv 45 "abi45_0_0" (baseTransformsFactory "abi45_0_0")
        ["u"] ["v"] "modA").1.head? =
      some (Action.removeDir (["v"] ++ splitSlash "modA")) ∧
    fsRemoveAll [(["w", "x.txt"], "c")] ["v"] = [(["w", "x.txt"], "c")] :=
  claim_C4_remove_before_copies sampleEnv 45 none "abi45_0_0"
    (baseTransformsFactory "abi45_0_0") ["u"] ["v"] "modA"
    [(["w", "x.txt"], "c")] ["v"] (by decide)

theorem versionOneModule_writes_under (env : VendoringEnv) (sdk : Nat) (pfx : String)
    (base : RequiredTransforms) (uv : Path) (name : String) :
    ∀ a ∈ (versionOneModule env sdk pfx base uv (vendoredDirectoryForSDK env sdk) name).1,
      ∀ q ∈ actionWrites a,
        startsWithPath (vendoredDirectoryForSDK env sdk ++ splitSlash name) q = true := by
  intro a ha q hq
  rcases mem_versionOneModule_cases env sdk pfx base uv (vendoredDirectoryForSDK env sdk)
      name a ha with rfl | ⟨sf, _, rfl⟩ | hpre
  · simp only [actionWrites, List.mem_cons, List.not_mem_nil, or_false] at hq
    subst hq
    exact startsWithPath_refl _
  · simp only [actionWrites, List.mem_cons, List.not_mem_nil, or_false] at hq
    subst hq
    exact startsWithPath_refl _
  · obtain ⟨suffix, rfl⟩ := prebuild_writes_under env name sdk a hpre q hq
    have heq : moduleRootDir env name sdk ++ suffix =
        (vendoredDirectoryForSDK env sdk ++ splitSlash name) ++ (["android"] ++ suffix) := by
      simp [moduleRootDir, vendoredDirectoryForSDK, androidVendoredDir, List.append_assoc]
    rw [heq]
    exact startsWithPath_append _ _

theorem runModules_writes_under (env : VendoringEnv) (sdk : Nat) (pfx : String)
    (base : RequiredTransforms) (uv : Path) :
    ∀ (names : List String) (a : Action),
      a ∈ (runModules env sdk pfx base uv (vendoredDirectoryForSDK env sdk) names).1 →
      ∀ q ∈ actionWrites a,
        ∃ name, name ∈ names ∧
          startsWithPath (vendoredDirectoryForSDK env sdk ++ splitSlash name) q = true := by
  intro names a ha q hq
  obtain ⟨name, hn, hmem⟩ :=
    mem_runModules_trace env sdk pfx base uv (vendoredDirectoryForSDK env sdk) names a ha
  exact ⟨name, hn, versionOneModule_writes_under env sdk pfx base uv name a hmem q hq⟩

/-- C5: with a non-null filter, exactly the discovered modules that the
filter contains are processed, in discovery order; every directory the run
creates, deletes or modifies lies under a selected module's target
directory; and any path outside every selected module's target directory
keeps its content. -/
theorem claim_C5_filter_frame (env : VendoringEnv) (sdk : Nat) (fm : List String)
    (engine : CopyEngine) (fs : FS) (p : Path)
    (heng : goodEngine engine)
    (hp : ∀ name ∈ selectedModules env (some fm),
      startsWithPath (vendoredDirectoryForSDK env sdk ++ splitSlash name) p = false) :
    selectedModules env (some fm) =
      (discoveredModules env).filter (fun name => fm.contains name) ∧
    (∀ a ∈ (versionVendoredModules env sdk (some fm)).1, ∀ q ∈ actionWrites a,
      ∃ name, name ∈ selectedModules env (some fm) ∧
        startsWithPath (vendoredDirectoryForSDK env sdk ++ splitSlash name) q = true) ∧
    fsGet (applyTrace engine fs (versionVendoredModules env sdk (some fm)).1) p =
      fsGet fs p := by
  have hw : ∀ a ∈ (versionVendoredModules env sdk (some fm)).1, ∀ q ∈ actionWrites a,
      ∃ name, name ∈ selectedModules env (some fm) ∧
        startsWithPath (vendoredDirectoryForSDK env sdk ++ splitSlash name) q = true := by
    intro a ha q hq
    unfold versionVendoredModules at ha
    dsimp only at ha
    exact runModules_writes_under env sdk (versionPfx sdk)
      (baseTransformsFactory (versionPfx sdk)) (unversionedDirPath env)
      (selectedModules env (some fm)) a ha q hq
  refine ⟨rfl, hw, ?_⟩
  apply applyTrace_frame engine heng
  intro a ha q hq
  obtain ⟨name, hn, hun⟩ := hw a ha q hq
  by_contra hqp
  rw [Bool.not_eq_false] at hqp
  have habs := startsWithPath_trans hun hqp
  rw [hp name hn] at habs
  exact Bool.noConfusion habs

/-- C5 witness: the concrete run filtered to `modA`, observed at a path
outside every selected target directory. -/
theorem claim_C5_witness :
    selectedModules sampleEnv (some ["modA"]) =
      (discoveredModules sampleEnv).filter (fun name => ["modA"].contains name) ∧
    (∀ a ∈ (versionVendoredModules sampleEnv 45 (some ["modA"])).1, ∀ q ∈ actionWrites a,
      ∃ name, name ∈ selectedModules sampleEnv (some ["modA"]) ∧
        startsWithPath (vendoredDirectoryForSDK sampleEnv 45 ++ splitSlash name) q = true) ∧
    fsGet (applyTrace idEngine [] (versionVendoredModules sampleEnv 45 (some ["modA"])).1)
        ["elsewhere"] =
      fsGet [] ["elsewhere"] :=
  claim_C5_filter_frame sampleEnv 45 ["modA"] idEngine [] ["elsewhere"]
    (fun _ _ _ _ _ _ _ => rfl) (by decide)

theorem caselessEqList_length : ∀ {a b : List String},
    caselessEqList a b = true → a.length = b.length := by
  intro a
  induction a with
  | nil =>
    intro b h
    cases b with
    | nil => rfl
    | cons y ys => simp [caselessEqList] at h
  | cons x xs ih =>
    intro b h
    cases b with
    | nil => simp [caselessEqList] at h
    | cons y ys =>
      simp only [caselessEqList, Bool.and_eq_true] at h
      simp [ih h.2]

theorem stripDirCaseless_eq (d : List String) :
    ∀ (p r : List String), stripDirCaseless d p = some r ↔
      ∃ root, p = root ++ r ∧ caselessEqList root d = true := by
  induction d with
  | nil =>
    intro p r
    constructor
    · intro h
      simp only [stripDirCaseless, Option.some.injEq] at h
      exact ⟨[], by rw [h]; rfl, rfl⟩
    · rintro ⟨root, hp, hr⟩
      cases root with
      | nil => simpa [stripDirCaseless] using hp
      | cons y ys => simp [caselessEqList] at hr
  | cons x xs ih =>
    intro p r
    cases p with
    | nil =>
      constructor
      · intro h; simp [stripDirCaseless] at h
      · rintro ⟨root, hp, hr⟩
        cases root with
        | nil => simp [caselessEqList] at hr
        | cons y ys => simp at hp
    | cons s ss =>
      constructor
      · intro h
        unfold stripDirCaseless at h
        by_cases hce : caselessEq s x = true
        · rw [if_pos hce] at h
          obtain ⟨root, hp, hr⟩ := (ih ss r).mp h
          refine ⟨s :: root, by rw [List.cons_append, hp], ?_⟩
          simp [caselessEqList, hce, hr]
        · rw [if_neg hce] at h
          exact absurd h (by simp)
      · rintro ⟨root, hp, hr⟩
        cases root with
        | nil => simp [caselessEqList] at hr
        | cons y ys =>
          simp only [caselessEqList, Bool.and_eq_true] at hr
          rw [List.cons_append] at hp
          injection hp with hsy hss
          unfold stripDirCaseless
          rw [if_pos (by rw [hsy]; exact hr.1)]
          exact (ih ss r).mpr ⟨ys, hss, hr.2⟩

theorem splitLastTwo_cons_cons (y z : String) :
    ∀ zs : List String, ∃ mid a b, splitLastTwo (y :: z :: zs) = some (mid, a, b) := by
  intro zs
  induction zs generalizing y z with
  | nil => exact ⟨[], y, z, rfl⟩
  | cons w ws ih =>
    obtain ⟨mid, a, b, hs⟩ := ih z w
    exact ⟨y :: mid, a, b, by simp [splitLastTwo, hs]⟩

theorem splitLastTwo_eq : ∀ (l mid : List String) (a b : String),
    splitLastTwo l = some (mid, a, b) ↔ l = mid ++ [a, b] := by
  intro l
  induction l with
  | nil =>
    intro mid a b
    constructor
    · intro h; exact absurd h (by simp [splitLastTwo])
    · intro h; exact absurd (congrArg List.length h) (by simp)
  | cons x xs ih =>
    intro mid a b
    cases xs with
    | nil =>
      constructor
      · intro h; exact absurd h (by simp [splitLastTwo])
      · intro h
        have hlen := congrArg List.length h
        simp only [List.length_cons, List.length_nil, List.length_append] at hlen
        omega
    | cons y ys =>
      cases ys with
      | nil =>
        simp only [splitLastTwo, Option.some.injEq, Prod.mk.injEq]
        constructor
        · rintro ⟨rfl, rfl, rfl⟩; rfl
        · intro h
          cases mid with
          | nil =>
            injection h with h1 h2
            injection h2 with h3 h4
            exact ⟨rfl, h1, h3⟩
          | cons m ms =>
            have hlen := congrArg List.length h
            simp only [List.length_cons, List.length_nil, List.length_append] at hlen
            omega
      | cons z zs =>
        obtain ⟨mid0, a0, b0, hs⟩ := splitLastTwo_cons_cons y z zs
        have hx : y :: z :: zs = mid0 ++ [a0, b0] := (ih mid0 a0 b0).mp hs
        have hdef : splitLastTwo (x :: y :: z :: zs) = some (x :: mid0, a0, b0) := by
          simp [splitLastTwo, hs]
        rw [hdef]
        simp only [Option.some.injEq, Prod.mk.injEq]
        constructor
        · rintro ⟨rfl, rfl, rfl⟩
          rw [List.cons_append, ← hx]
        · intro h
          cases mid with
          | nil =>
            have := congrArg List.length h
            simp at this
          | cons m ms =>
            rw [List.cons_append] at h
            injection h with h1 h2
            have := (ih ms a b).mpr h2
            rw [hs] at this
            injection this with h3
            injection h3 with h4 h5
            injection h5 with h6 h7
            exact ⟨by rw [h1, h4], h6, h7⟩

theorem positionalVendoredModuleName_some_iff (directory p : Path) (name : String) :
    positionalVendoredModuleName directory p = some name ↔
      ∃ root mid a b, p = root ++ (mid ++ [a, b]) ∧ mid ≠ [] ∧
        caselessEqList root directory = true ∧
        caselessEq a "android" = true ∧ caselessEq b "build.gradle" = true ∧
        name = joinSlash mid := by
  constructor
  · intro h
    unfold positionalVendoredModuleName at h
    cases hs : stripDirCaseless directory p with
    | none => rw [hs] at h; exact absurd h (by simp)
    | some rest =>
      rw [hs] at h
      dsimp only at h
      cases hsp : splitLastTwo rest with
      | none => rw [hsp] at h; exact absurd h (by simp)
      | some t =>
        obtain ⟨mid, a, b⟩ := t
        rw [hsp] at h
        dsimp only at h
        by_cases hcond :
            (!mid.isEmpty && caselessEq a "android" && caselessEq b "build.gradle") = true
        · rw [if_pos hcond] at h
          injection h with hn
          obtain ⟨root, hp, hr⟩ := (stripDirCaseless_eq directory p rest).mp hs
          have hrest : rest = mid ++ [a, b] := (splitLastTwo_eq rest mid a b).mp hsp
          simp only [Bool.and_eq_true] at hcond
          refine ⟨root, mid, a, b, by rw [hp, hrest], ?_, hr, hcond.1.2, hcond.2, hn.symm⟩
          intro e
          rw [e] at hcond
          simp at hcond
        · rw [if_neg hcond] at h
          exact absurd h (by simp)
  · rintro ⟨root, mid, a, b, hp, hm, hr, ha, hb, hn⟩
    have hs : stripDirCaseless directory p = some (mid ++ [a, b]) :=
      (stripDirCaseless_eq directory p (mid ++ [a, b])).mpr ⟨root, hp, hr⟩
    have hsp : splitLastTwo (mid ++ [a, b]) = some (mid, a, b) :=
      (splitLastTwo_eq (mid ++ [a, b]) mid a b).mpr rfl
    have hcond :
        (!mid.isEmpty && caselessEq a "android" && caselessEq b "build.gradle") = true := by
      rcases mid with _ | ⟨m, ms⟩
      · exact absurd rfl hm
      · simp [ha, hb, List.isEmpty]
    unfold positionalVendoredModuleName
    rw [hs]
    dsimp only
    rw [hsp]
    dsimp only
    rw [if_pos hcond, hn]

theorem getVendoredModuleNames_eq_filterMap (directory : Path) (paths : List Path) :
    getVendoredModuleNames directory paths =
      paths.filterMap (matchVendoredModule directory) := by
  have gen : ∀ (l : List Path) (acc : List String),
      l.foldl (fun result gradlePath =>
        match matchVendoredModule directory gradlePath with
        | some moduleName => result ++ [moduleName]
        | none => result) acc = acc ++ l.filterMap (matchVendoredModule directory) := by
    intro l
    induction l with
    | nil => intro acc; simp
    | cons x xs ih =>
      intro acc
      cases hm : matchVendoredModule directory x with
      | some m => simp [List.foldl, hm, ih, List.filterMap_cons]
      | none => simp [List.foldl, hm, ih, List.filterMap_cons]
  have := gen paths []
  simpa [getVendoredModuleNames] using this

theorem charMatches_of_lowerCode_eq {a b : Char} (h : lowerCode a = lowerCode b) :
    charMatches a b = true := by
  unfold charMatches
  by_cases hd : a = '.'
  · subst hd
    rw [if_pos rfl]
    have hb : (b == '\n') = false := by
      rw [beq_eq_false_iff_ne]
      intro e
      subst e
      exact absurd h (by decide)
    rw [hb]
    rfl
  · rw [if_neg hd, h]
    simp

theorem chMatchList_of_lowerMap : ∀ {pat u : List Char},
    pat.map lowerCode = u.map lowerCode → chMatchList pat u = true := by
  intro pat
  induction pat with
  | nil =>
    intro u h
    cases u with
    | nil => rfl
    | cons c cs => simp at h
  | cons pc ps ih =>
    intro u h
    cases u with
    | nil => simp at h
    | cons sc ss =>
      simp only [List.map_cons, List.cons.injEq] at h
      simp [chMatchList, charMatches_of_lowerCode_eq h.1, ih h.2]

theorem chMatchList_length : ∀ {pat u : List Char},
    chMatchList pat u = true → pat.length = u.length := by
  intro pat
  induction pat with
  | nil =>
    intro u h
    cases u with
    | nil => rfl
    | cons c cs => simp [chMatchList] at h
  | cons pc ps ih =>
    intro u h
    cases u with
    | nil => simp [chMatchList] at h
    | cons sc ss =>
      simp only [chMatchList, Bool.and_eq_true] at h
      simp [ih h.2]

theorem litMatchesPre_of_chMatchList : ∀ {pat u : List Char} (v : List Char),
    chMatchList pat u = true → litMatchesPre pat (u ++ v) = true := by
  intro pat
  induction pat with
  | nil => intro u v h; rfl
  | cons pc ps ih =>
    intro u v h
    cases u with
    | nil => simp [chMatchList] at h
    | cons sc ss =>
      simp only [chMatchList, Bool.and_eq_true] at h
      simp only [List.cons_append, litMatchesPre, Bool.and_eq_true]
      exact ⟨h.1, ih v h.2⟩

theorem litMatchesPre_length : ∀ {pat s : List Char},
    litMatchesPre pat s = true → pat.length ≤ s.length := by
  intro pat
  induction pat with
  | nil => intro s h; simp
  | cons pc ps ih =>
    intro s h
    cases s with
    | nil => simp [litMatchesPre] at h
    | cons sc ss =>
      simp only [litMatchesPre, Bool.and_eq_true] at h
      simp only [List.length_cons]
      exact Nat.succ_le_succ (ih h.2)

theorem greedyAux_stable (pat2 : List Char) :
    ∀ (v acc : List Char) (best : Option (List Char)), v.length < pat2.length →
      greedyAux pat2 acc v best = best := by
  intro v
  induction v with
  | nil =>
    intro acc best h
    have hq : ¬ litMatchesPre pat2 [] = true := fun hp => by
      have hl := litMatchesPre_length hp
      simp only [List.length_nil, Nat.le_zero] at hl
      omega
    simp [greedyAux, if_neg hq]
  | cons c cs ih =>
    intro acc best h
    have hq : ¬ litMatchesPre pat2 (c :: cs) = true := fun hp => by
      have hl := litMatchesPre_length hp
      simp only [List.length_cons] at hl h
      omega
    by_cases hc : c = '\n'
    · simp [greedyAux, if_neg hq, if_pos hc]
    · simp only [greedyAux, if_neg hq, if_neg hc]
      exact ih (c :: acc) best (by simp only [List.length_cons] at h; omega)

theorem greedyAux_spec (pat2 w : List Char)
    (hp2 : pat2 ≠ []) (hw : pat2.length = w.length) (hm : litMatchesPre pat2 w = true) :
    ∀ (u acc : List Char) (best : Option (List Char)),
      (∀ c ∈ u, c ≠ '\n') →
      greedyAux pat2 acc (u ++ w) best = some (acc.reverse ++ u) := by
  intro u
  induction u with
  | nil =>
    intro acc best hnl
    cases hwc : w with
    | nil =>
      rw [hwc] at hw
      simp only [List.length_nil] at hw
      exact absurd (List.length_eq_zero.mp hw) hp2
    | cons c cs =>
      subst hwc
      simp only [List.nil_append]
      by_cases hc : c = '\n'
      · simp [greedyAux, if_pos hm, if_pos hc]
      · simp only [greedyAux, if_pos hm, if_neg hc]
        rw [greedyAux_stable pat2 cs (c :: acc) (some acc.reverse)
          (by simp only [List.length_cons] at hw; omega)]
        simp
  | cons c u2 ih =>
    intro acc best hnl
    have hc : c ≠ '\n' := hnl c (List.mem_cons_self c u2)
    simp only [List.cons_append, greedyAux, if_neg hc, List.append_eq]
    rw [ih (c :: acc) _ (fun d hd => hnl d (List.mem_cons_of_mem c hd))]
    simp

theorem findModuleMatch_of_head (pat1 pat2 : List Char) (s cap : List Char)
    (h1 : litMatchesPre pat1 s = true)
    (h2 : greedyAux pat2 [] (List.drop pat1.length s) none = some cap) :
    findModuleMatch pat1 pat2 s = some cap := by
  cases s with
  | nil =>
    simp only [findModuleMatch, if_pos h1]
    simpa using h2
  | cons c cs =>
    simp only [findModuleMatch]
    rw [if_pos h1, h2]

theorem joinSlash_data_append : ∀ (l1 l2 : List String), l1 ≠ [] → l2 ≠ [] →
    (joinSlash (l1 ++ l2)).data = (joinSlash l1).data ++ '/' :: (joinSlash l2).data := by
  intro l1
  induction l1 with
  | nil => intro l2 h1 h2; exact absurd rfl h1
  | cons x xs ih =>
    intro l2 h1 h2
    cases xs with
    | nil =>
      cases l2 with
      | nil => exact absurd rfl h2
      | cons y ys =>
        show (x ++ "/" ++ joinSlash (y :: ys)).data = x.data ++ '/' :: (joinSlash (y :: ys)).data
        simp [String.data_append, show ("/" : String).data = ['/'] from rfl]
    | cons x2 xs2 =>
      cases l2 with
      | nil => exact absurd rfl h2
      | cons y ys =>
        show (x ++ "/" ++ joinSlash ((x2 :: xs2) ++ (y :: ys))).data =
          (x ++ "/" ++ joinSlash (x2 :: xs2)).data ++ '/' :: (joinSlash (y :: ys)).data
        simp only [String.data_append, show ("/" : String).data = ['/'] from rfl]
        rw [ih (y :: ys) (by simp) (by simp)]
        simp [List.append_assoc]

theorem joinSlash_lowerMap : ∀ {root dir : List String},
    caselessEqList root dir = true →
    (joinSlash root).data.map lowerCode = (joinSlash dir).data.map lowerCode := by
  intro root
  induction root with
  | nil =>
    intro dir h
    cases dir with
    | nil => rfl
    | cons y ys => simp [caselessEqList] at h
  | cons x xs ih =>
    intro dir h
    cases dir with
    | nil => simp [caselessEqList] at h
    | cons y ys =>
      simp only [caselessEqList, Bool.and_eq_true] at h
      have hx : x.data.map lowerCode = y.data.map lowerCode := eq_of_beq h.1
      cases xs with
      | nil =>
        cases ys with
        | nil => simpa using hx
        | cons y2 ys2 => simp [caselessEqList] at h
      | cons x2 xs2 =>
        cases ys with
        | nil => simp [caselessEqList] at h
        | cons y2 ys2 =>
          have hrec := ih h.2
          show ((x ++ "/" ++ joinSlash (x2 :: xs2)).data.map lowerCode) =
            ((y ++ "/" ++ joinSlash (y2 :: ys2)).data.map lowerCode)
          simp [String.data_append, List.map_append, hx, hrec]

theorem matchVendoredModule_positional (directory root mid : List String) (a b : String)
    (hdir : directory ≠ [])
    (hmid : mid ≠ [])
    (hroot : caselessEqList root directory = true)
    (ha : caselessEq a "android" = true)
    (hb : caselessEq b "build.gradle" = true)
    (hnl : ∀ c ∈ (joinSlash mid).data, c ≠ '\n') :
    matchVendoredModule directory (root ++ (mid ++ [a, b])) = some (joinSlash mid) := by
  have hrootne : root ≠ [] := by
    intro e
    subst e
    cases directory with
    | nil => exact hdir rfl
    | cons d ds => simp [caselessEqList] at hroot
  have hab : (joinSlash [a, b]).data = a.data ++ '/' :: b.data := by
    show (a ++ "/" ++ b).data = a.data ++ '/' :: b.data
    simp [String.data_append, show ("/" : String).data = ['/'] from rfl]
  have hsubject : (joinSlash (root ++ (mid ++ [a, b]))).data =
      ((joinSlash root).data ++ ['/']) ++
        ((joinSlash mid).data ++ '/' :: (joinSlash [a, b]).data) := by
    rw [joinSlash_data_append root (mid ++ [a, b]) hrootne (by simp),
        joinSlash_data_append mid [a, b] hmid (by simp)]
    simp [List.append_assoc]
  have hpat1 : (joinSlash directory ++ "/").data = (joinSlash directory).data ++ ['/'] := by
    simp [String.data_append, show ("/" : String).data = ['/'] from rfl]
  have hlower : ((joinSlash directory).data ++ ['/']).map lowerCode =
      ((joinSlash root).data ++ ['/']).map lowerCode := by
    rw [List.map_append, List.map_append, joinSlash_lowerMap hroot]
  have hcm1 := chMatchList_of_lowerMap hlower
  have hlen : ((joinSlash directory).data ++ ['/']).length =
      ((joinSlash root).data ++ ['/']).length := by
    simpa using congrArg List.length hlower
  have hamap : a.data.map lowerCode = ("android" : String).data.map lowerCode := by
    have h2 := ha
    unfold caselessEq at h2
    exact eq_of_beq h2
  have hbmap : b.data.map lowerCode = ("build.gradle" : String).data.map lowerCode := by
    have h2 := hb
    unfold caselessEq at h2
    exact eq_of_beq h2
  have hmap2 : ("/android/build.gradle".data).map lowerCode =
      ('/' :: (joinSlash [a, b]).data).map lowerCode := by
    rw [hab]
    simp only [List.map_cons, List.map_append, hamap, hbmap]
    decide
  have hcm2 := chMatchList_of_lowerMap hmap2
  have hwlen := chMatchList_length hcm2
  have hm2 : litMatchesPre ("/android/build.gradle".data)
      ('/' :: (joinSlash [a, b]).data) = true := by
    have h3 := litMatchesPre_of_chMatchList [] hcm2
    simpa using h3
  have hgreedy : greedyAux ("/android/build.gradle".data) []
      ((joinSlash mid).data ++ '/' :: (joinSlash [a, b]).data) none =
      some (joinSlash mid).data := by
    have h4 := greedyAux_spec ("/android/build.gradle".data)
      ('/' :: (joinSlash [a, b]).data) (by decide) hwlen hm2 (joinSlash mid).data [] none hnl
    simpa using h4
  have h1 : litMatchesPre ((joinSlash directory).data ++ ['/'])
      (((joinSlash root).data ++ ['/']) ++
        ((joinSlash mid).data ++ '/' :: (joinSlash [a, b]).data)) = true :=
    litMatchesPre_of_chMatchList _ hcm1
  have h2 : greedyAux ("/android/build.gradle".data) []
      (List.drop ((joinSlash directory).data ++ ['/']).length
        (((joinSlash root).data ++ ['/']) ++
          ((joinSlash mid).data ++ '/' :: (joinSlash [a, b]).data))) none =
      some (joinSlash mid).data := by
    rw [hlen, List.drop_left]
    exact hgreedy
  unfold matchVendoredModule
  rw [hsubject, hpat1, findModuleMatch_of_head _ _ _ _ h1 h2]
  rfl

/-- C8 (amended): module discovery applies the source's unanchored,
case-insensitive, wildcard-dot regex search to every glob result in order,
yielding one module (the greedy capture) per path on which the search
succeeds and silently skipping every other path with no error; on every
path of the positional form `<root>/<moduleName>/android/build.gradle`
(module part nonempty and newline-free, trailing segments compared
case-insensitively) the derived name is exactly the segment(s) between the
root and `/android/build.gradle`. -/
theorem claim_C8_discovery_amended (directory : Path) (gradlePaths : List Path)
    (root mid : List String) (a b : String)
    (hdir : directory ≠ [])
    (hmid : mid ≠ [])
    (hroot : caselessEqList root directory = true)
    (ha : caselessEq a "android" = true)
    (hb : caselessEq b "build.gradle" = true)
    (hnl : ∀ c ∈ (joinSlash mid).data, c ≠ '\n') :
    getVendoredModuleNames directory gradlePaths =
      gradlePaths.filterMap (matchVendoredModule directory) ∧
    matchVendoredModule directory (root ++ (mid ++ [a, b])) = some (joinSlash mid) :=
  ⟨getVendoredModuleNames_eq_filterMap directory gradlePaths,
   matchVendoredModule_positional directory root mid a b hdir hmid hroot ha hb hnl⟩

/-- C8 witness: a concrete root and a positionally well-formed descriptor
path. -/
theorem claim_C8_witness :
    getVendoredModuleNames ["r"] [["r", "m", "android", "build.gradle"]] =
      List.filterMap (matchVendoredModule ["r"]) [["r", "m", "android", "build.gradle"]] ∧
    matchVendoredModule ["r"] (["r"] ++ (["m"] ++ ["android", "build.gradle"])) =
      some (joinSlash ["m"]) :=
  claim_C8_discovery_amended ["r"] [["r", "m", "android", "build.gradle"]] ["r"] ["m"]
    "android" "build.gradle" (by decide) (by decide) (by decide) (by decide) (by decide)
    (by decide)

/-- C8 counterexample: the glob result
`r/m/android/build.gradle.bak/x/build.gradle` (its basename is
`build.gradle`, so the `**/build.gradle` glob can produce it once a
directory is named `build.gradle.bak`) does not match the positional
whole-path pattern, yet the source's unanchored regex search still derives
module `m` from it instead of silently skipping it. -/
theorem claim_C8_counterexample :
    matchVendoredModule ["r"] ["r", "m", "android", "build.gradle.bak", "x", "build.gradle"] =
      some "m" ∧
    getVendoredModuleNames ["r"]
        [["r", "m", "android", "build.gradle.bak", "x", "build.gradle"]] = ["m"] ∧
    positionalVendoredModuleName ["r"]
        ["r", "m", "android", "build.gradle.bak", "x", "build.gradle"] = none := by
  refine ⟨by decide, by decide, by decide⟩

end Expo
